import Mathlib

/-! # TDMA slot allocator (`dect_phy_mac_tdma_logic.c`)

A shallow embedding of the slot table and of the three functions of
`src/tdma/src/dect/mac/dect_phy_mac_tdma_logic.c`:
`find_free_slots`, `dect_phy_mac_assign_slots` and `dect_phy_mac_free_slots`.

Modelling conventions.

* The global `global_slot_map` is passed explicitly and returned.
* `uint8_t`/`uint32_t` values are natural numbers; `int` values are integers.
  The only narrowing store of the file, `client->assigned_slot_start = slot_start`,
  is written with an explicit `% 256`.
* A `client` pointer is an `Option`: `none` is the null pointer.
* A store `slots[idx] = v` with `idx` outside `0 .. MAX_SLOTS-1` has no defined
  meaning in C; the embedding returns `none` for the whole call in that case.
* `printf` lines are diagnostic only and are not modelled.
-/

namespace DectTdma

/-! ## Data model -/

/-- The constant `#define MAX_SLOTS 256`: number of slots in a beacon frame. -/
def MAX_SLOTS : Nat := 256

/-- The constant `#define SLOT_FREE 0`. -/
def SLOT_FREE : Nat := 0

/-- The constant `#define SLOT_RESERVED 1`. -/
def SLOT_RESERVED : Nat := 1

/-- The `struct dect_phy_mac_slot_map` with its one field `uint8_t slots[MAX_SLOTS]`.
`slots i` is the content of `slots[i]`; only indices below `MAX_SLOTS` are ever
read, and `slot_store` refuses to write any other index. -/
structure dect_phy_mac_slot_map where
  slots : Nat → Nat

/-- The `struct dect_phy_mac_client_info` of `dect_phy_mac_common.h`. -/
structure dect_phy_mac_client_info where
  client_id : Nat
  num_slots_needed : Nat
  assigned_slot_start : Nat
  deriving DecidableEq

/-- The store `global_slot_map.slots[idx] = v`; `none` when `idx` is not an index
of the array. -/
def slot_store (g : dect_phy_mac_slot_map) (idx v : Nat) : Option dect_phy_mac_slot_map :=
  if idx < MAX_SLOTS then some ⟨fun j => if j = idx then v else g.slots j⟩ else none

/-! ## `find_free_slots` -/

/-- The body of `for (int i = 0; i < MAX_SLOTS; i++)` in `find_free_slots`.
The first argument is the number of iterations still to run (`MAX_SLOTS - i`),
then the loop variable `i` and the locals `start` and `count`. Falling out of the
loop gives the final `return -1`. -/
def find_free_slots_loop (g : dect_phy_mac_slot_map) (needed_slots : Nat) :
    Nat → Nat → Int → Int → Int
  | 0, _, _, _ => -1
  | rem + 1, i, start, count =>
    if g.slots i = SLOT_FREE then
      if count + 1 = (needed_slots : Int) then
        (if start = -1 then (i : Int) else start)
      else
        find_free_slots_loop g needed_slots rem (i + 1)
          (if start = -1 then (i : Int) else start) (count + 1)
    else
      find_free_slots_loop g needed_slots rem (i + 1) (-1) 0

/-- The function `static int find_free_slots(uint8_t needed_slots)`. -/
def find_free_slots (g : dect_phy_mac_slot_map) (needed_slots : Nat) : Int :=
  find_free_slots_loop g needed_slots MAX_SLOTS 0 (-1) 0

/-! ## `dect_phy_mac_assign_slots` and `dect_phy_mac_free_slots` -/

/-- The loop `for (int i = 0; i < n; i++) global_slot_map.slots[base + i] = v;`
that both functions run (with `v = SLOT_RESERVED`, resp. `v = SLOT_FREE`).
The first numeric argument is the number of iterations still to run (`n - i`),
the second is `i`. -/
def slot_store_loop (base v : Nat) : Nat → Nat → dect_phy_mac_slot_map →
    Option dect_phy_mac_slot_map
  | 0, _, g => some g
  | rem + 1, i, g =>
    match slot_store g (base + i) v with
    | none => none
    | some g1 => slot_store_loop base v rem (i + 1) g1

/-- The function `int dect_phy_mac_assign_slots(struct dect_phy_mac_client_info *client)`.
The result is the returned `int`, the slot map and the client record after the
call. -/
def dect_phy_mac_assign_slots (g : dect_phy_mac_slot_map)
    (client : Option dect_phy_mac_client_info) :
    Option (Int × dect_phy_mac_slot_map × Option dect_phy_mac_client_info) :=
  match client with
  | none => some (-1, g, none)
  | some c =>
    if c.num_slots_needed = 0 then some (-1, g, some c)
    else
      if find_free_slots g c.num_slots_needed < 0 then some (-1, g, some c)
      else
        match slot_store_loop (find_free_slots g c.num_slots_needed).toNat SLOT_RESERVED
            c.num_slots_needed 0 g with
        | none => none
        | some g1 =>
          some (0, g1, some { c with
            assigned_slot_start := (find_free_slots g c.num_slots_needed % 256).toNat })

/-- The function `void dect_phy_mac_free_slots(struct dect_phy_mac_client_info *client)`.
The result is the slot map and the client record after the call. -/
def dect_phy_mac_free_slots (g : dect_phy_mac_slot_map)
    (client : Option dect_phy_mac_client_info) :
    Option (dect_phy_mac_slot_map × Option dect_phy_mac_client_info) :=
  match client with
  | none => some (g, none)
  | some c =>
    match slot_store_loop c.assigned_slot_start SLOT_FREE c.num_slots_needed 0 g with
    | none => none
    | some g1 => some (g1, some { c with assigned_slot_start := 0xFF })

/-! ## Vocabulary of the properties -/

/-- Slots `s .. s+n-1` are all `SLOT_FREE`. -/
def FreeRun (g : dect_phy_mac_slot_map) (s n : Nat) : Prop :=
  ∀ j, s ≤ j → j < s + n → g.slots j = SLOT_FREE

/-- The table with every slot free. -/
def all_free : dect_phy_mac_slot_map := ⟨fun _ => SLOT_FREE⟩

/-- The table with every slot reserved. -/
def all_reserved : dect_phy_mac_slot_map := ⟨fun _ => SLOT_RESERVED⟩

/-- Free exactly at indices 0-2 and 5-9. -/
def map_0_2_5_9 : dect_phy_mac_slot_map :=
  ⟨fun i => if i < 3 ∨ (5 ≤ i ∧ i < 10) then SLOT_FREE else SLOT_RESERVED⟩

/-- Free exactly at indices 0-1 and 4-5: two separate runs of length 2. -/
def map_two_pairs : dect_phy_mac_slot_map :=
  ⟨fun i => if i < 2 ∨ (4 ≤ i ∧ i < 6) then SLOT_FREE else SLOT_RESERVED⟩

/-- Number of `SLOT_FREE` entries among `slots[0] .. slots[k-1]`. -/
def free_count_upto (g : dect_phy_mac_slot_map) : Nat → Nat
  | 0 => 0
  | k + 1 => free_count_upto g k + (if g.slots k = SLOT_FREE then 1 else 0)

/-- Total number of free slots of the table. -/
def free_count (g : dect_phy_mac_slot_map) : Nat := free_count_upto g MAX_SLOTS

/-! ## Call sequences

The allocator is driven by a caller that owns the client records. The caller is
modelled as a family of records indexed by a handle `k`, and a sequence of calls
each naming the handle it is made on. -/

/-- One call of the caller: `dect_phy_mac_assign_slots(&clients[k])` or
`dect_phy_mac_free_slots(&clients[k])`. -/
inductive Call where
  | assign (k : Nat)
  | release (k : Nat)
  deriving DecidableEq

/-- The slot map, the caller's client records, and a record of the call history:
`holds k` is true when the last call on client `k` that changed anything was an
assign returning 0, and false after a release or when no assign has succeeded. -/
structure MacState where
  map : dect_phy_mac_slot_map
  clients : Nat → dect_phy_mac_client_info
  holds : Nat → Bool

/-- The initial system: every slot free, no client holding a range. -/
def MacState.init (clients : Nat → dect_phy_mac_client_info) : MacState :=
  ⟨all_free, clients, fun _ => false⟩

/-- Run one call; `none` when the called function stores outside the table. -/
def MacState.call (st : MacState) : Call → Option MacState
  | Call.assign k =>
    match dect_phy_mac_assign_slots st.map (some (st.clients k)) with
    | some (r, g1, some c1) =>
      some ⟨g1, fun j => if j = k then c1 else st.clients j,
        fun j => if j = k then (decide (r = 0) || st.holds k) else st.holds j⟩
    | _ => none
  | Call.release k =>
    match dect_phy_mac_free_slots st.map (some (st.clients k)) with
    | some (g1, some c1) =>
      some ⟨g1, fun j => if j = k then c1 else st.clients j,
        fun j => if j = k then false else st.holds j⟩
    | _ => none

/-- Run a sequence of calls from left to right. -/
def MacState.run (st : MacState) : List Call → Option MacState
  | [] => some st
  | x :: xs =>
    match st.call x with
    | none => none
    | some st1 => st1.run xs

/-- The caller's protocol: assign is only called on a client that holds no range,
release only on a client that holds one. (A call that stores outside the table ends
the check; the protocol says nothing about it.) -/
def MacState.disciplined (st : MacState) : List Call → Bool
  | [] => true
  | x :: xs =>
    (match x with
      | Call.assign k => !st.holds k
      | Call.release k => st.holds k) &&
    (match st.call x with
      | none => true
      | some st1 => st1.disciplined xs)

/-- Slot `i` lies in the range `[assigned_slot_start, assigned_slot_start +
num_slots_needed)` of the client record `c`. -/
def InRange (c : dect_phy_mac_client_info) (i : Nat) : Prop :=
  c.assigned_slot_start ≤ i ∧ i < c.assigned_slot_start + c.num_slots_needed

/-- The agreement between slot map and client records: the reserved slots are
exactly the slots in the range of a client holding one, these ranges lie in the
table and are pairwise disjoint, and a client holding none carries `0xFF`. -/
structure MacState.Consistent (st : MacState) : Prop where
  reserved_iff : ∀ i, i < MAX_SLOTS →
    (st.map.slots i = SLOT_RESERVED ↔ ∃ k, st.holds k = true ∧ InRange (st.clients k) i)
  in_table : ∀ k, st.holds k = true →
    (st.clients k).assigned_slot_start + (st.clients k).num_slots_needed ≤ MAX_SLOTS
  disjoint : ∀ k1 k2, k1 ≠ k2 → st.holds k1 = true → st.holds k2 = true →
    (st.clients k1).assigned_slot_start + (st.clients k1).num_slots_needed
        ≤ (st.clients k2).assigned_slot_start ∨
      (st.clients k2).assigned_slot_start + (st.clients k2).num_slots_needed
        ≤ (st.clients k1).assigned_slot_start
  sentinel : ∀ k, st.holds k = false → (st.clients k).assigned_slot_start = 0xFF

/-! ## More vocabulary: reserved count and assignment of a list of clients -/

/-- Reserved at indices 0-254, free at index 255 only. -/
def map_last_free : dect_phy_mac_slot_map :=
  ⟨fun i => if i = 255 then SLOT_FREE else SLOT_RESERVED⟩

/-- Number of `SLOT_RESERVED` entries among `slots[0] .. slots[k-1]`. -/
def reserved_count_upto (g : dect_phy_mac_slot_map) : Nat → Nat
  | 0 => 0
  | k + 1 => reserved_count_upto g k + (if g.slots k = SLOT_RESERVED then 1 else 0)

/-- Total number of reserved slots of the table. -/
def reserved_count (g : dect_phy_mac_slot_map) : Nat := reserved_count_upto g MAX_SLOTS

/-- Call `dect_phy_mac_assign_slots` on each client of a list, in order. The result
is the final slot map and, for each client, the returned value and the record after
its call. -/
def assign_in_order (g : dect_phy_mac_slot_map) :
    List dect_phy_mac_client_info →
      Option (dect_phy_mac_slot_map × List (Int × dect_phy_mac_client_info))
  | [] => some (g, [])
  | c :: cs =>
    match dect_phy_mac_assign_slots g (some c) with
    | some (r, g1, some c1) =>
      match assign_in_order g1 cs with
      | some (g2, out) => some (g2, (r, c1) :: out)
      | none => none
    | _ => none

/-! ## The store loop -/

theorem slot_store_loop_ok (base v : Nat) :
    ∀ (rem i : Nat) (g : dect_phy_mac_slot_map), base + i + rem ≤ MAX_SLOTS →
      ∃ g1, slot_store_loop base v rem i g = some g1 ∧
        ∀ j, g1.slots j = if base + i ≤ j ∧ j < base + i + rem then v else g.slots j := by
  intro rem
  induction rem with
  | zero =>
    intro i g _
    refine ⟨g, rfl, ?_⟩
    intro j
    have : ¬ (base + i ≤ j ∧ j < base + i + 0) := by omega
    rw [if_neg this]
  | succ rem ih =>
    intro i g hb
    have hlt : base + i < MAX_SLOTS := by omega
    obtain ⟨g1, hg1, hs⟩ :=
      ih (i + 1) ⟨fun j => if j = base + i then v else g.slots j⟩ (by omega)
    refine ⟨g1, ?_, ?_⟩
    · simp only [slot_store_loop, slot_store, if_pos hlt]
      exact hg1
    · intro j
      rw [hs j]
      by_cases h1 : base + (i + 1) ≤ j ∧ j < base + (i + 1) + rem
      · have h2 : base + i ≤ j ∧ j < base + i + (rem + 1) := by omega
        rw [if_pos h1, if_pos h2]
      · rw [if_neg h1]
        by_cases h3 : j = base + i
        · have h2 : base + i ≤ j ∧ j < base + i + (rem + 1) := by omega
          simp [h3]
        · have h2 : ¬ (base + i ≤ j ∧ j < base + i + (rem + 1)) := by omega
          simp [h3, h2]

theorem slot_store_loop_out_of_range (base v : Nat) :
    ∀ (rem i : Nat) (g : dect_phy_mac_slot_map), 0 < rem → MAX_SLOTS < base + i + rem →
      slot_store_loop base v rem i g = none := by
  intro rem
  induction rem with
  | zero =>
    intro i g h0 _
    omega
  | succ rem ih =>
    intro i g _ h
    by_cases hlt : base + i < MAX_SLOTS
    · simp only [slot_store_loop, slot_store, if_pos hlt]
      exact ih (i + 1) _ (by omega) (by omega)
    · simp only [slot_store_loop, slot_store, if_neg hlt]

/-! ## The search loop -/

theorem find_free_slots_loop_spec (g : dect_phy_mac_slot_map) (needed : Nat) :
    ∀ (rem i c : Nat) (start count : Int),
      count = (c : Int) → start = (if c = 0 then -1 else (i : Int) - c) →
      c ≤ i → c < needed → FreeRun g (i - c) c →
      (∀ s', s' < i - c → ¬ FreeRun g s' needed) →
      (find_free_slots_loop g needed rem i start count = -1 ∧
          ∀ s', s' + needed ≤ i + rem → ¬ FreeRun g s' needed) ∨
        (∃ s : Nat, find_free_slots_loop g needed rem i start count = (s : Int) ∧
          s + needed ≤ i + rem ∧ FreeRun g s needed ∧
          ∀ s', s' < s → ¬ FreeRun g s' needed) := by
  intro rem
  induction rem with
  | zero =>
    intro i c start count _ _ hci hcn _ hmin
    left
    refine ⟨rfl, ?_⟩
    intro s' hs'
    exact hmin s' (by omega)
  | succ rem ih =>
    intro i c start count hcount hstart hci hcn hrun hmin
    have hstart' : (if start = -1 then (i : Int) else start) = (i : Int) - c := by
      subst hstart
      by_cases hc : c = 0
      · simp [hc]
      · have : ¬ ((i : Int) - c = -1) := by omega
        simp [hc, this]
    unfold find_free_slots_loop
    by_cases hfree : g.slots i = SLOT_FREE
    · rw [if_pos hfree]
      have hrun1 : FreeRun g (i - c) (c + 1) := by
        intro j h1 h2
        by_cases hj : j = i
        · rw [hj]; exact hfree
        · exact hrun j h1 (by omega)
      by_cases hdone : count + 1 = (needed : Int)
      · rw [if_pos hdone, hstart']
        right
        have hc1 : c + 1 = needed := by omega
        refine ⟨i - c, by omega, by omega, ?_, hmin⟩
        rw [← hc1]; exact hrun1
      · rw [if_neg hdone, hstart']
        have h := ih (i + 1) (c + 1) ((i : Int) - c) (count + 1) (by omega)
          (by simp) (by omega) (by omega)
          (by rw [show i + 1 - (c + 1) = i - c by omega]; exact hrun1)
          (by rw [show i + 1 - (c + 1) = i - c by omega]; exact hmin)
        rw [show i + 1 + rem = i + (rem + 1) by omega] at h
        exact h
    · rw [if_neg hfree]
      have h := ih (i + 1) 0 (-1) 0 (by simp) (by simp) (by omega) (by omega)
        (by intro j h1 h2; omega)
        (by
          intro s' hs' hfr
          by_cases hlt : s' < i - c
          · exact hmin s' hlt hfr
          · exact hfree (hfr i (by omega) (by omega)))
      rw [show i + 1 + rem = i + (rem + 1) by omega] at h
      exact h

/-- Specification of `find_free_slots` for a request of at least one slot: either
it returns `-1` and no run of `needed` free slots fits in the table, or it returns
the start of the lowest such run. -/
theorem find_free_slots_spec (g : dect_phy_mac_slot_map) (needed : Nat) (hn : 1 ≤ needed) :
    (find_free_slots g needed = -1 ∧
        ∀ s', s' + needed ≤ MAX_SLOTS → ¬ FreeRun g s' needed) ∨
      (∃ s : Nat, find_free_slots g needed = (s : Int) ∧
        s + needed ≤ MAX_SLOTS ∧ FreeRun g s needed ∧
        ∀ s', s' < s → ¬ FreeRun g s' needed) := by
  have h := find_free_slots_loop_spec g needed MAX_SLOTS 0 0 (-1) 0 (by simp) (by simp)
    (by omega) (by omega) (by intro j h1 h2; omega) (by intro s' hs'; omega)
  simpa [find_free_slots] using h

/-! ## The two operations -/

theorem assign_zero_needed (g : dect_phy_mac_slot_map) (c : dect_phy_mac_client_info)
    (h : c.num_slots_needed = 0) :
    dect_phy_mac_assign_slots g (some c) = some (-1, g, some c) := by
  simp [dect_phy_mac_assign_slots, h]

theorem assign_not_found (g : dect_phy_mac_slot_map) (c : dect_phy_mac_client_info)
    (h : find_free_slots g c.num_slots_needed = -1) :
    dect_phy_mac_assign_slots g (some c) = some (-1, g, some c) := by
  simp [dect_phy_mac_assign_slots, h]

theorem assign_found (g : dect_phy_mac_slot_map) (c : dect_phy_mac_client_info) (s : Nat)
    (hn : 0 < c.num_slots_needed) (hf : find_free_slots g c.num_slots_needed = (s : Int))
    (hb : s + c.num_slots_needed ≤ MAX_SLOTS) :
    ∃ g1, dect_phy_mac_assign_slots g (some c) =
        some (0, g1, some ⟨c.client_id, c.num_slots_needed, s⟩) ∧
      ∀ j, g1.slots j =
        if s ≤ j ∧ j < s + c.num_slots_needed then SLOT_RESERVED else g.slots j := by
  obtain ⟨g1, hg1, hs⟩ := slot_store_loop_ok s SLOT_RESERVED c.num_slots_needed 0 g
    (by omega)
  refine ⟨g1, ?_, ?_⟩
  · have hn0 : c.num_slots_needed ≠ 0 := by omega
    have hnn : ¬ ((s : Int) < 0) := by omega
    have hs256 : s < 256 := by simp only [MAX_SLOTS] at hb; omega
    have hmod : ((s : Int) % 256).toNat = s := by omega
    simp only [dect_phy_mac_assign_slots, if_neg hn0, hf, if_neg hnn, Int.toNat_ofNat, hg1,
      hmod]
  · intro j
    rw [hs j]
    simp

/-- The outcome of `dect_phy_mac_assign_slots` on a client asking for at least one
slot: refusal with nothing changed when no run fits, otherwise the lowest run is
reserved and recorded. -/
theorem assign_cases (g : dect_phy_mac_slot_map) (c : dect_phy_mac_client_info)
    (hn : 0 < c.num_slots_needed) :
    (find_free_slots g c.num_slots_needed = -1 ∧
        (∀ s', s' + c.num_slots_needed ≤ MAX_SLOTS → ¬ FreeRun g s' c.num_slots_needed) ∧
        dect_phy_mac_assign_slots g (some c) = some (-1, g, some c)) ∨
      (∃ (s : Nat) (g1 : dect_phy_mac_slot_map),
        find_free_slots g c.num_slots_needed = (s : Int) ∧
        s + c.num_slots_needed ≤ MAX_SLOTS ∧ FreeRun g s c.num_slots_needed ∧
        (∀ s', s' < s → ¬ FreeRun g s' c.num_slots_needed) ∧
        dect_phy_mac_assign_slots g (some c) =
          some (0, g1, some ⟨c.client_id, c.num_slots_needed, s⟩) ∧
        ∀ j, g1.slots j =
          if s ≤ j ∧ j < s + c.num_slots_needed then SLOT_RESERVED else g.slots j) := by
  rcases find_free_slots_spec g c.num_slots_needed hn with ⟨hf, hno⟩ | ⟨s, hf, hb, hrun, hmin⟩
  · exact Or.inl ⟨hf, hno, assign_not_found g c hf⟩
  · obtain ⟨g1, ha, hs⟩ := assign_found g c s hn hf hb
    exact Or.inr ⟨s, g1, hf, hb, hrun, hmin, ha, hs⟩

theorem free_in_range (g : dect_phy_mac_slot_map) (c : dect_phy_mac_client_info)
    (hb : c.assigned_slot_start + c.num_slots_needed ≤ MAX_SLOTS) :
    ∃ g1, dect_phy_mac_free_slots g (some c) =
        some (g1, some ⟨c.client_id, c.num_slots_needed, 0xFF⟩) ∧
      ∀ j, g1.slots j =
        if c.assigned_slot_start ≤ j ∧ j < c.assigned_slot_start + c.num_slots_needed
        then SLOT_FREE else g.slots j := by
  obtain ⟨g1, hg1, hs⟩ :=
    slot_store_loop_ok c.assigned_slot_start SLOT_FREE c.num_slots_needed 0 g (by omega)
  refine ⟨g1, ?_, ?_⟩
  · simp only [dect_phy_mac_free_slots, hg1]
  · intro j
    rw [hs j]
    simp

theorem free_count_upto_ge_run (g : dect_phy_mac_slot_map) :
    ∀ (k n s : Nat), s + n ≤ k → FreeRun g s n → n ≤ free_count_upto g k := by
  intro k
  induction k with
  | zero => intro n s h _; omega
  | succ k ih =>
    intro n s h hrun
    unfold free_count_upto
    by_cases hk : s + n ≤ k
    · have := ih n s hk hrun
      omega
    · by_cases hn : n = 0
      · omega
      · have hfree : g.slots k = SLOT_FREE := hrun k (by omega) (by omega)
        have hrun1 : FreeRun g s (n - 1) := fun j h1 h2 => hrun j h1 (by omega)
        have := ih (n - 1) s (by omega) hrun1
        rw [if_pos hfree]
        omega

/-! ## Call sequences keep map and records in agreement -/

theorem consistent_init (clients : Nat → dect_phy_mac_client_info)
    (h : ∀ k, (clients k).assigned_slot_start = 0xFF) :
    (MacState.init clients).Consistent where
  reserved_iff := by
    intro i _
    simp [MacState.init, all_free, SLOT_FREE, SLOT_RESERVED]
  in_table := by
    intro k hk
    simp [MacState.init] at hk
  disjoint := by
    intro k1 k2 _ hk
    simp [MacState.init] at hk
  sentinel := by
    intro k _
    exact h k

theorem call_assign_consistent (st : MacState) (k : Nat) (hI : st.Consistent)
    (hpos : ∀ j, 0 < (st.clients j).num_slots_needed) (hd : st.holds k = false) :
    ∃ st1, st.call (Call.assign k) = some st1 ∧ st1.Consistent ∧
      ∀ j, (st1.clients j).num_slots_needed = (st.clients j).num_slots_needed := by
  have hn := hpos k
  rcases assign_cases st.map (st.clients k) hn with
    ⟨_, _, ha⟩ | ⟨s, g1, _, hb, hrun, _, ha, hs⟩
  · refine ⟨⟨st.map, fun j => if j = k then st.clients k else st.clients j,
        fun j => if j = k then (decide ((-1 : Int) = 0) || st.holds k) else st.holds j⟩,
      by simp only [MacState.call, ha], ?_, ?_⟩
    · have hc : ∀ j, (if j = k then st.clients k else st.clients j) = st.clients j := by
        intro j; split
        · next h => rw [h]
        · rfl
      have hh : ∀ j, (if j = k then (decide ((-1 : Int) = 0) || st.holds k) else st.holds j)
          = st.holds j := by
        intro j; split
        · next h => rw [h]; simp
        · rfl
      constructor
      · intro i hi
        simp only [hc, hh]
        exact hI.reserved_iff i hi
      · intro j hj
        simp only [hc, hh] at hj ⊢
        exact hI.in_table j hj
      · intro k1 k2 hne h1 h2
        simp only [hc, hh] at h1 h2 ⊢
        exact hI.disjoint k1 k2 hne h1 h2
      · intro j hj
        simp only [hc, hh] at hj ⊢
        exact hI.sentinel j hj
    · intro j
      show (if j = k then st.clients k else st.clients j).num_slots_needed = _
      split
      · next h => rw [h]
      · rfl
  · refine ⟨⟨g1, fun j => if j = k then
          ⟨(st.clients k).client_id, (st.clients k).num_slots_needed, s⟩ else st.clients j,
        fun j => if j = k then (decide ((0 : Int) = 0) || st.holds k) else st.holds j⟩,
      by simp only [MacState.call, ha], ?_, ?_⟩
    · have hfree_not_res : ∀ i, i < MAX_SLOTS → s ≤ i → i < s + (st.clients k).num_slots_needed →
          ¬ ∃ k', st.holds k' = true ∧ InRange (st.clients k') i := by
        intro i hi h1 h2 hex
        have hr := (hI.reserved_iff i hi).2 hex
        have hf := hrun i h1 h2
        rw [hf] at hr
        simp [SLOT_FREE, SLOT_RESERVED] at hr
      constructor
      · intro i hi
        show g1.slots i = SLOT_RESERVED ↔ _
        rw [hs i]
        constructor
        · intro h
          by_cases hin : s ≤ i ∧ i < s + (st.clients k).num_slots_needed
          · exact ⟨k, by simp, by simpa [InRange] using hin⟩
          · rw [if_neg hin] at h
            obtain ⟨k', hk', hr'⟩ := (hI.reserved_iff i hi).1 h
            have hne : k' ≠ k := by
              intro he; rw [he, hd] at hk'; simp at hk'
            exact ⟨k', by simpa [hne] using hk', by simpa [hne] using hr'⟩
        · rintro ⟨k', hk', hr'⟩
          by_cases hin : s ≤ i ∧ i < s + (st.clients k).num_slots_needed
          · rw [if_pos hin]
          · rw [if_neg hin]
            have hne : k' ≠ k := by
              intro he
              subst he
              apply hin
              simpa [InRange] using hr'
            simp only [if_neg hne] at hk' hr'
            exact (hI.reserved_iff i hi).2 ⟨k', hk', hr'⟩
      · intro j hj
        by_cases hjk : j = k
        · subst hjk
          simpa using hb
        · simp only [if_neg hjk] at hj ⊢
          exact hI.in_table j hj
      · intro k1 k2 hne h1 h2
        by_cases hk1 : k1 = k
        · subst hk1
          have hk2 : k2 ≠ k1 := fun h => hne h.symm
          simp only [if_neg hk2] at h2 ⊢
          simp only [if_true]
          have hin2 := hI.in_table k2 h2
          by_contra hcon
          by_cases hle : s ≤ (st.clients k2).assigned_slot_start
          · have hpos2 := hpos k2
            exact hfree_not_res (st.clients k2).assigned_slot_start (by omega) hle (by omega)
              ⟨k2, h2, ⟨Nat.le_refl _, by omega⟩⟩
          · exact hfree_not_res s (by omega) (Nat.le_refl _) (by omega)
              ⟨k2, h2, ⟨by omega, by omega⟩⟩
        · by_cases hk2 : k2 = k
          · subst hk2
            simp only [if_neg hk1] at h1 ⊢
            simp only [if_true]
            have hin1 := hI.in_table k1 h1
            by_contra hcon
            by_cases hle : s ≤ (st.clients k1).assigned_slot_start
            · have hpos1 := hpos k1
              exact hfree_not_res (st.clients k1).assigned_slot_start (by omega) hle (by omega)
                ⟨k1, h1, ⟨Nat.le_refl _, by omega⟩⟩
            · exact hfree_not_res s (by omega) (Nat.le_refl _) (by omega)
                ⟨k1, h1, ⟨by omega, by omega⟩⟩
          · simp only [if_neg hk1, if_neg hk2] at h1 h2 ⊢
            exact hI.disjoint k1 k2 hne h1 h2
      · intro j hj
        by_cases hjk : j = k
        · subst hjk
          simp at hj
        · simp only [if_neg hjk] at hj ⊢
          exact hI.sentinel j hj
    · intro j
      show (if j = k then _ else st.clients j).num_slots_needed = _
      split
      · next h => rw [h]
      · rfl

theorem call_release_consistent (st : MacState) (k : Nat) (hI : st.Consistent)
    (hd : st.holds k = true) :
    ∃ st1, st.call (Call.release k) = some st1 ∧ st1.Consistent ∧
      ∀ j, (st1.clients j).num_slots_needed = (st.clients j).num_slots_needed := by
  obtain ⟨g1, hf, hs⟩ := free_in_range st.map (st.clients k) (hI.in_table k hd)
  refine ⟨⟨g1, fun j => if j = k then
        ⟨(st.clients k).client_id, (st.clients k).num_slots_needed, 0xFF⟩ else st.clients j,
      fun j => if j = k then false else st.holds j⟩,
    by simp only [MacState.call, hf], ?_, ?_⟩
  · constructor
    · intro i hi
      show g1.slots i = SLOT_RESERVED ↔ _
      rw [hs i]
      constructor
      · intro h
        by_cases hin : (st.clients k).assigned_slot_start ≤ i ∧
            i < (st.clients k).assigned_slot_start + (st.clients k).num_slots_needed
        · rw [if_pos hin] at h
          simp [SLOT_FREE, SLOT_RESERVED] at h
        · rw [if_neg hin] at h
          obtain ⟨k', hk', hr'⟩ := (hI.reserved_iff i hi).1 h
          have hne : k' ≠ k := by
            intro he; subst he; exact hin hr'
          exact ⟨k', by simpa [hne] using hk', by simpa [hne] using hr'⟩
      · rintro ⟨k', hk', hr'⟩
        have hne : k' ≠ k := by
          intro he; subst he; simp at hk'
        simp only [if_neg hne] at hk' hr'
        have hdis := hI.disjoint k' k hne hk' hd
        have hin : ¬ ((st.clients k).assigned_slot_start ≤ i ∧
            i < (st.clients k).assigned_slot_start + (st.clients k).num_slots_needed) := by
          unfold InRange at hr'
          omega
        rw [if_neg hin]
        exact (hI.reserved_iff i hi).2 ⟨k', hk', hr'⟩
    · intro j hj
      by_cases hjk : j = k
      · subst hjk; simp at hj
      · simp only [if_neg hjk] at hj ⊢
        exact hI.in_table j hj
    · intro k1 k2 hne h1 h2
      by_cases hk1 : k1 = k
      · subst hk1; simp at h1
      · by_cases hk2 : k2 = k
        · subst hk2; simp at h2
        · simp only [if_neg hk1, if_neg hk2] at h1 h2 ⊢
          exact hI.disjoint k1 k2 hne h1 h2
    · intro j hj
      by_cases hjk : j = k
      · subst hjk; simp
      · simp only [if_neg hjk] at hj ⊢
        exact hI.sentinel j hj
  · intro j
    show (if j = k then _ else st.clients j).num_slots_needed = _
    split
    · next h => rw [h]
    · rfl

theorem run_disciplined_consistent (calls : List Call) :
    ∀ (st : MacState), st.Consistent → (∀ j, 0 < (st.clients j).num_slots_needed) →
      st.disciplined calls = true →
      ∃ st1, st.run calls = some st1 ∧ st1.Consistent ∧
        ∀ j, (st1.clients j).num_slots_needed = (st.clients j).num_slots_needed := by
  induction calls with
  | nil =>
    intro st hI _ _
    exact ⟨st, rfl, hI, fun _ => rfl⟩
  | cons x xs ih =>
    intro st hI hpos hd
    simp only [MacState.disciplined, Bool.and_eq_true] at hd
    obtain ⟨hpre, hrest⟩ := hd
    have hstep : ∃ st1, st.call x = some st1 ∧ st1.Consistent ∧
        ∀ j, (st1.clients j).num_slots_needed = (st.clients j).num_slots_needed := by
      cases x with
      | assign k =>
        exact call_assign_consistent st k hI hpos (by simpa using hpre)
      | release k =>
        exact call_release_consistent st k hI (by simpa using hpre)
    obtain ⟨st1, hcall, hI1, hn1⟩ := hstep
    rw [hcall] at hrest
    obtain ⟨st2, hrun, hI2, hn2⟩ := ih st1 hI1 (fun j => by rw [hn1 j]; exact hpos j) hrest
    refine ⟨st2, ?_, hI2, fun j => by rw [hn2 j, hn1 j]⟩
    simp only [MacState.run, hcall]
    exact hrun

/-! ## Claims -/

/-- C1, as stated, fails: with every client unassigned and needing one slot, two
assign calls in a row on client 0 leave slot 0 reserved although no client record
whose `assigned_slot_start` differs from `0xFF` has slot 0 in its range (client 0 now
records the range `[1, 2)`). -/
theorem C1_counterexample :
    (dect_phy_mac_client_info.mk 1 1 0xFF).assigned_slot_start = 0xFF ∧
      0 < (dect_phy_mac_client_info.mk 1 1 0xFF).num_slots_needed ∧
      ∃ st, (MacState.init (fun _ => ⟨1, 1, 0xFF⟩)).run [Call.assign 0, Call.assign 0]
          = some st ∧
        ¬ (∀ i, i < MAX_SLOTS →
            (st.map.slots i = SLOT_RESERVED ↔
              ∃ k, (st.clients k).assigned_slot_start ≠ 0xFF ∧ InRange (st.clients k) i)) := by
  refine ⟨rfl, by decide,
    ⟨⟨fun j => if j = 1 then SLOT_RESERVED else if j = 0 then SLOT_RESERVED else SLOT_FREE⟩,
      fun j => if j = 0 then ⟨1, 1, 1⟩ else if j = 0 then ⟨1, 1, 0⟩ else ⟨1, 1, 0xFF⟩,
      fun j => if j = 0 then true else if j = 0 then true else false⟩, rfl, ?_⟩
  intro h
  obtain ⟨k, hk, hr⟩ := (h 0 (by decide)).1 (by decide)
  by_cases hk0 : k = 0
  · subst hk0
    simp [InRange] at hr
  · simp [hk0] at hk

/-- C1, amended: starting from an all-free slot map and clients that are all
unassigned (`assigned_slot_start = 0xFF`, `num_slots_needed > 0`), after every finite
sequence of assign and release calls in which assign is only called on a client that
holds no range and release only on a client that holds one (holding meaning: its last
effective call was an assign returning 0), every call completes, the set of reserved
slot indices equals the union of `[assigned_slot_start, assigned_slot_start +
num_slots_needed)` over the clients holding a range, those ranges are pairwise
disjoint, `num_slots_needed` is unchanged, and every client holding no range carries
`0xFF`. -/
theorem C1_reserved_is_union_of_held_ranges (clients : Nat → dect_phy_mac_client_info)
    (calls : List Call)
    (hinit : ∀ k, (clients k).assigned_slot_start = 0xFF ∧ 0 < (clients k).num_slots_needed)
    (hd : (MacState.init clients).disciplined calls = true) :
    ∃ st, (MacState.init clients).run calls = some st ∧
      (∀ i, i < MAX_SLOTS →
        (st.map.slots i = SLOT_RESERVED ↔
          ∃ k, st.holds k = true ∧ InRange (st.clients k) i)) ∧
      (∀ k1 k2, k1 ≠ k2 → st.holds k1 = true → st.holds k2 = true →
        (st.clients k1).assigned_slot_start + (st.clients k1).num_slots_needed
            ≤ (st.clients k2).assigned_slot_start ∨
          (st.clients k2).assigned_slot_start + (st.clients k2).num_slots_needed
            ≤ (st.clients k1).assigned_slot_start) ∧
      (∀ k, (st.clients k).num_slots_needed = (clients k).num_slots_needed) ∧
      (∀ k, st.holds k = false → (st.clients k).assigned_slot_start = 0xFF) := by
  obtain ⟨st, hrun, hI, hn⟩ := run_disciplined_consistent calls (MacState.init clients)
    (consistent_init clients (fun k => (hinit k).1)) (fun k => (hinit k).2) hd
  exact ⟨st, hrun, hI.reserved_iff, hI.disjoint, hn, hI.sentinel⟩

set_option maxRecDepth 100000 in
theorem C1_reserved_is_union_of_held_ranges_witness :
    ∃ st, (MacState.init (fun k => ⟨k + 1, k + 1, 0xFF⟩)).run
        [Call.assign 0, Call.assign 1, Call.release 0, Call.assign 2, Call.release 1]
          = some st ∧
      (∀ i, i < MAX_SLOTS →
        (st.map.slots i = SLOT_RESERVED ↔
          ∃ k, st.holds k = true ∧ InRange (st.clients k) i)) ∧
      (∀ k1 k2, k1 ≠ k2 → st.holds k1 = true → st.holds k2 = true →
        (st.clients k1).assigned_slot_start + (st.clients k1).num_slots_needed
            ≤ (st.clients k2).assigned_slot_start ∨
          (st.clients k2).assigned_slot_start + (st.clients k2).num_slots_needed
            ≤ (st.clients k1).assigned_slot_start) ∧
      (∀ k, (st.clients k).num_slots_needed = k + 1) ∧
      (∀ k, st.holds k = false → (st.clients k).assigned_slot_start = 0xFF) :=
  C1_reserved_is_union_of_held_ranges (fun k => ⟨k + 1, k + 1, 0xFF⟩)
    [Call.assign 0, Call.assign 1, Call.release 0, Call.assign 2, Call.release 1]
    (fun k => ⟨rfl, Nat.succ_pos k⟩) (by decide)

/-- C2: if `dect_phy_mac_assign_slots` on a client returns 0, then
`dect_phy_mac_free_slots` on that client right afterwards completes and gives a
slot map equal to the one before the assignment at every index 0..255. -/
theorem C2_assign_then_free_round_trip (g g1 : dect_phy_mac_slot_map)
    (c : dect_phy_mac_client_info) (c1 : Option dect_phy_mac_client_info)
    (h : dect_phy_mac_assign_slots g (some c) = some (0, g1, c1)) :
    ∃ g2 c2, dect_phy_mac_free_slots g1 c1 = some (g2, c2) ∧
      ∀ i, i < MAX_SLOTS → g2.slots i = g.slots i := by
  by_cases hn : c.num_slots_needed = 0
  · rw [assign_zero_needed g c hn] at h
    simp at h
  · rcases assign_cases g c (by omega) with ⟨_, _, ha⟩ | ⟨s, g1', _, hb, hrun, _, ha, hs⟩
    · rw [ha] at h
      simp at h
    · rw [ha] at h
      simp only [Option.some.injEq, Prod.mk.injEq, true_and] at h
      obtain ⟨hg, hc⟩ := h
      subst hg hc
      obtain ⟨g2, hf, hs2⟩ := free_in_range g1' ⟨c.client_id, c.num_slots_needed, s⟩ hb
      refine ⟨g2, _, hf, ?_⟩
      intro i _
      rw [hs2 i, hs i]
      by_cases hi : s ≤ i ∧ i < s + c.num_slots_needed
      · simp only [if_pos hi]
        exact (hrun i hi.1 hi.2).symm
      · simp only [if_neg hi]

set_option maxRecDepth 100000 in
theorem C2_assign_then_free_round_trip_witness :
    ∃ g1 c1, dect_phy_mac_assign_slots map_0_2_5_9 (some ⟨7, 3, 0xFF⟩) = some (0, g1, c1) ∧
      ∃ g2 c2, dect_phy_mac_free_slots g1 c1 = some (g2, c2) ∧
        ∀ i, i < MAX_SLOTS → g2.slots i = map_0_2_5_9.slots i :=
  ⟨_, _, rfl, C2_assign_then_free_round_trip map_0_2_5_9 _ ⟨7, 3, 0xFF⟩ _ rfl⟩

/-- C3: first fit. For a request of 1..255 slots, when `find_free_slots` returns
`s >= 0` the slots `s .. s+needed-1` are all free and no lower start `s' < s` has
`s' .. s'+needed-1` all free. -/
theorem C3_find_free_slots_first_fit (g : dect_phy_mac_slot_map) (needed : Nat) (s : Int)
    (h1 : 1 ≤ needed) (h2 : needed ≤ 255) (hs : find_free_slots g needed = s)
    (h0 : 0 ≤ s) :
    FreeRun g s.toNat needed ∧ ∀ s' : Nat, (s' : Int) < s → ¬ FreeRun g s' needed := by
  have _ := h2
  rcases find_free_slots_spec g needed h1 with ⟨hf, _⟩ | ⟨t, hf, _, hrun, hmin⟩
  · omega
  · have hst : s = (t : Int) := by omega
    subst hst
    refine ⟨by simpa using hrun, ?_⟩
    intro s' hs'
    exact hmin s' (by omega)

/-- The example of C3: free exactly at 0-2 and 5-9, a request for 3 gives 0 (not 5),
and the general statement applies there. -/
theorem C3_find_free_slots_first_fit_witness :
    find_free_slots map_0_2_5_9 3 = 0 ∧
      (FreeRun map_0_2_5_9 (0 : Int).toNat 3 ∧
        ∀ s' : Nat, (s' : Int) < 0 → ¬ FreeRun map_0_2_5_9 s' 3) :=
  ⟨by decide,
    C3_find_free_slots_first_fit map_0_2_5_9 3 0 (by decide) (by decide) (by decide)
      (by decide)⟩

/-- C4: completeness of the search. For a request of 1..255 slots,
`find_free_slots` returns `-1` exactly when no start `s` with `s + needed <= 256`
has the slots `s .. s+needed-1` all free. -/
theorem C4_find_free_slots_not_found_iff (g : dect_phy_mac_slot_map) (needed : Nat)
    (h1 : 1 ≤ needed) (h2 : needed ≤ 255) :
    find_free_slots g needed = -1 ↔
      ¬ ∃ s, s + needed ≤ MAX_SLOTS ∧ FreeRun g s needed := by
  have _ := h2
  rcases find_free_slots_spec g needed h1 with ⟨hf, hno⟩ | ⟨t, hf, hb, hrun, _⟩
  · constructor
    · rintro _ ⟨s, hs, hr⟩
      exact hno s hs hr
    · intro _
      exact hf
  · constructor
    · intro h
      omega
    · intro h
      exact absurd ⟨t, hb, hrun⟩ h

set_option maxRecDepth 100000 in
/-- The example of C4: two separate free runs of length 2 and a request for 3. -/
theorem C4_find_free_slots_not_found_iff_witness :
    find_free_slots map_two_pairs 3 = -1 ∧
      (find_free_slots map_two_pairs 3 = -1 ↔
        ¬ ∃ s, s + 3 ≤ MAX_SLOTS ∧ FreeRun map_two_pairs s 3) :=
  ⟨by decide, C4_find_free_slots_not_found_iff map_two_pairs 3 (by decide) (by decide)⟩

/-- C5: postcondition of a successful assignment. For a client with
`num_slots_needed > 0`, when `find_free_slots` returns `start >= 0` the call
returns 0, the resulting map is reserved on `[start, start+n)` and equal to the old
map at every other index, `assigned_slot_start` is `start`, and `client_id` and
`num_slots_needed` are unchanged. -/
theorem C5_assign_success_postcondition (g : dect_phy_mac_slot_map)
    (c : dect_phy_mac_client_info) (start : Int)
    (hn : 0 < c.num_slots_needed)
    (hf : find_free_slots g c.num_slots_needed = start) (h0 : 0 ≤ start) :
    ∃ g1 c1, dect_phy_mac_assign_slots g (some c) = some (0, g1, some c1) ∧
      (∀ i, i < MAX_SLOTS → g1.slots i =
        if start ≤ (i : Int) ∧ (i : Int) < start + c.num_slots_needed
        then SLOT_RESERVED else g.slots i) ∧
      (c1.assigned_slot_start : Int) = start ∧
      c1.client_id = c.client_id ∧ c1.num_slots_needed = c.num_slots_needed := by
  rcases assign_cases g c hn with ⟨hf', _, _⟩ | ⟨s, g1, hf', _, _, _, ha, hs⟩
  · omega
  · have hst : start = (s : Int) := by omega
    subst hst
    refine ⟨g1, _, ha, ?_, rfl, rfl, rfl⟩
    intro i _
    rw [hs i]
    by_cases hi : s ≤ i ∧ i < s + c.num_slots_needed
    · have hi' : (s : Int) ≤ (i : Int) ∧ (i : Int) < (s : Int) + c.num_slots_needed := by
        omega
      rw [if_pos hi, if_pos hi']
    · have hi' : ¬ ((s : Int) ≤ (i : Int) ∧ (i : Int) < (s : Int) + c.num_slots_needed) := by
        omega
      rw [if_neg hi, if_neg hi']

theorem C5_assign_success_postcondition_witness :
    ∃ g1 c1, dect_phy_mac_assign_slots map_0_2_5_9 (some ⟨7, 4, 0xFF⟩) =
        some (0, g1, some c1) ∧
      (∀ i, i < MAX_SLOTS → g1.slots i =
        if (5 : Int) ≤ (i : Int) ∧ (i : Int) < 5 + (4 : Nat)
        then SLOT_RESERVED else map_0_2_5_9.slots i) ∧
      (c1.assigned_slot_start : Int) = 5 ∧
      c1.client_id = 7 ∧ c1.num_slots_needed = 4 :=
  C5_assign_success_postcondition map_0_2_5_9 ⟨7, 4, 0xFF⟩ 5 (by decide) (by decide)
    (by decide)

/-- C6: atomicity on failure. Whenever `dect_phy_mac_assign_slots` returns `-1`
the slot map is the same at every index and the client record is unchanged; and
both causes of failure, `num_slots_needed == 0` and the absence of a sufficient
free run, do return `-1`. -/
theorem C6_assign_failure_changes_nothing (g g1 : dect_phy_mac_slot_map)
    (c : dect_phy_mac_client_info) (c1 : Option dect_phy_mac_client_info)
    (h : dect_phy_mac_assign_slots g (some c) = some (-1, g1, c1)) :
    ((∀ i, i < MAX_SLOTS → g1.slots i = g.slots i) ∧ c1 = some c) ∧
      (c.num_slots_needed = 0 ∨
        ¬ ∃ s, s + c.num_slots_needed ≤ MAX_SLOTS ∧ FreeRun g s c.num_slots_needed) ∧
      ∀ c0 : dect_phy_mac_client_info,
        (c0.num_slots_needed = 0 ∨
          ¬ ∃ s, s + c0.num_slots_needed ≤ MAX_SLOTS ∧ FreeRun g s c0.num_slots_needed) →
        dect_phy_mac_assign_slots g (some c0) = some (-1, g, some c0) := by
  have hall : ∀ c0 : dect_phy_mac_client_info,
      (c0.num_slots_needed = 0 ∨
        ¬ ∃ s, s + c0.num_slots_needed ≤ MAX_SLOTS ∧ FreeRun g s c0.num_slots_needed) →
      dect_phy_mac_assign_slots g (some c0) = some (-1, g, some c0) := by
    intro c0 h0
    by_cases hn : c0.num_slots_needed = 0
    · exact assign_zero_needed g c0 hn
    · rcases assign_cases g c0 (by omega) with ⟨_, _, ha⟩ | ⟨s, _, _, hb, hrun, _, _, _⟩
      · exact ha
      · rcases h0 with h0 | h0
        · exact absurd h0 hn
        · exact absurd ⟨s, hb, hrun⟩ h0
  by_cases hn : c.num_slots_needed = 0
  · rw [assign_zero_needed g c hn] at h
    simp only [Option.some.injEq, Prod.mk.injEq, true_and] at h
    obtain ⟨hg, hc⟩ := h
    subst hg hc
    exact ⟨⟨fun _ _ => rfl, rfl⟩, Or.inl hn, hall⟩
  · rcases assign_cases g c (by omega) with ⟨_, hno, ha⟩ | ⟨s, g1', _, _, _, _, ha, _⟩
    · rw [ha] at h
      simp only [Option.some.injEq, Prod.mk.injEq, true_and] at h
      obtain ⟨hg, hc⟩ := h
      subst hg hc
      refine ⟨⟨fun _ _ => rfl, rfl⟩, Or.inr ?_, hall⟩
      rintro ⟨s, hs, hr⟩
      exact hno s hs hr
    · rw [ha] at h
      simp at h

set_option maxRecDepth 100000 in
theorem C6_assign_failure_changes_nothing_witness :
    ((∀ i, i < MAX_SLOTS → map_two_pairs.slots i = map_two_pairs.slots i) ∧
        some (dect_phy_mac_client_info.mk 7 3 0xFF) = some ⟨7, 3, 0xFF⟩) ∧
      ((dect_phy_mac_client_info.mk 7 3 0xFF).num_slots_needed = 0 ∨
        ¬ ∃ s, s + (dect_phy_mac_client_info.mk 7 3 0xFF).num_slots_needed ≤ MAX_SLOTS ∧
          FreeRun map_two_pairs s (dect_phy_mac_client_info.mk 7 3 0xFF).num_slots_needed) ∧
      ∀ c0 : dect_phy_mac_client_info,
        (c0.num_slots_needed = 0 ∨
          ¬ ∃ s, s + c0.num_slots_needed ≤ MAX_SLOTS ∧
            FreeRun map_two_pairs s c0.num_slots_needed) →
        dect_phy_mac_assign_slots map_two_pairs (some c0) =
          some (-1, map_two_pairs, some c0) :=
  C6_assign_failure_changes_nothing map_two_pairs map_two_pairs ⟨7, 3, 0xFF⟩
    (some ⟨7, 3, 0xFF⟩) rfl

set_option maxRecDepth 100000 in
/-- C7, as stated, fails: on a table with every slot reserved, a client with
`num_slots_needed == 0` and a client needing one slot (for which no free run
exists) both get the same return value from `dect_phy_mac_assign_slots`. -/
theorem C7_counterexample :
    (dect_phy_mac_client_info.mk 1 0 0xFF).num_slots_needed = 0 ∧
      0 < (dect_phy_mac_client_info.mk 2 1 0xFF).num_slots_needed ∧
      (¬ ∃ s, s + 1 ≤ MAX_SLOTS ∧ FreeRun all_reserved s 1) ∧
      ¬ ((dect_phy_mac_assign_slots all_reserved (some ⟨1, 0, 0xFF⟩)).map Prod.fst ≠
          (dect_phy_mac_assign_slots all_reserved (some ⟨2, 1, 0xFF⟩)).map Prod.fst) := by
  refine ⟨rfl, by decide, ?_, ?_⟩
  · rintro ⟨s, _, hr⟩
    have h := hr s (by omega) (by omega)
    simp [all_reserved, SLOT_RESERVED, SLOT_FREE] at h
  · rw [assign_zero_needed all_reserved ⟨1, 0, 0xFF⟩ rfl,
      assign_not_found all_reserved ⟨2, 1, 0xFF⟩ (by decide)]
    simp

/-- C7, amended: `dect_phy_mac_assign_slots` reports both failures with the same
value: it returns `-1` (map and client unchanged) for a client with
`num_slots_needed == 0`, and `-1` as well for a client with `num_slots_needed > 0`
when no sufficient contiguous free run exists. -/
theorem C7_assign_failures_share_return_value (g : dect_phy_mac_slot_map)
    (c0 c1 : dect_phy_mac_client_info)
    (h0 : c0.num_slots_needed = 0) (h1 : 0 < c1.num_slots_needed)
    (hno : ¬ ∃ s, s + c1.num_slots_needed ≤ MAX_SLOTS ∧ FreeRun g s c1.num_slots_needed) :
    dect_phy_mac_assign_slots g (some c0) = some (-1, g, some c0) ∧
      dect_phy_mac_assign_slots g (some c1) = some (-1, g, some c1) := by
  refine ⟨assign_zero_needed g c0 h0, ?_⟩
  rcases assign_cases g c1 h1 with ⟨_, _, ha⟩ | ⟨s, _, _, hb, hrun, _, _, _⟩
  · exact ha
  · exact absurd ⟨s, hb, hrun⟩ hno

set_option maxRecDepth 100000 in
theorem C7_assign_failures_share_return_value_witness :
    dect_phy_mac_assign_slots all_reserved (some ⟨1, 0, 0xFF⟩) =
        some (-1, all_reserved, some ⟨1, 0, 0xFF⟩) ∧
      dect_phy_mac_assign_slots all_reserved (some ⟨2, 1, 0xFF⟩) =
        some (-1, all_reserved, some ⟨2, 1, 0xFF⟩) :=
  C7_assign_failures_share_return_value all_reserved ⟨1, 0, 0xFF⟩ ⟨2, 1, 0xFF⟩ rfl
    (by decide)
    (by
      rintro ⟨s, _, hr⟩
      have h := hr s (Nat.le_refl s) (Nat.lt_succ_self s)
      simp [all_reserved, SLOT_RESERVED, SLOT_FREE] at h)

/-- C8: when `num_slots_needed` exceeds the total number of free slots of the table,
`dect_phy_mac_assign_slots` returns the failure value and leaves the slot map (and
the client) unchanged. -/
theorem C8_assign_more_than_free_fails (g : dect_phy_mac_slot_map)
    (c : dect_phy_mac_client_info) (h : free_count g < c.num_slots_needed) :
    dect_phy_mac_assign_slots g (some c) = some (-1, g, some c) := by
  rcases assign_cases g c (by omega) with ⟨_, _, ha⟩ | ⟨s, _, _, hb, hrun, _, _, _⟩
  · exact ha
  · have := free_count_upto_ge_run g MAX_SLOTS c.num_slots_needed s hb hrun
    unfold free_count at h
    omega

set_option maxRecDepth 100000 in
theorem C8_assign_more_than_free_fails_witness :
    free_count map_two_pairs = 4 ∧
      dect_phy_mac_assign_slots map_two_pairs (some ⟨7, 5, 0xFF⟩) =
        some (-1, map_two_pairs, some ⟨7, 5, 0xFF⟩) :=
  ⟨by decide, C8_assign_more_than_free_fails map_two_pairs ⟨7, 5, 0xFF⟩ (by decide)⟩

/-- C9 does not hold of the code: `dect_phy_mac_free_slots` never tests
`assigned_slot_start` against `0xFF`. On a table with every slot reserved and an
unassigned client needing one slot, the call sets slot 255 free; for a client needing
two slots the second store is at index 256, outside the table; and freeing a client
that holds slot 0 twice in a row is not the same as freeing it once. -/
theorem C9_free_of_unassigned_client_writes_slot_255 :
    all_reserved.slots 255 = SLOT_RESERVED ∧
      (dect_phy_mac_free_slots all_reserved (some ⟨3, 1, 0xFF⟩)).map
          (fun r => (r.1.slots 255, r.2)) = some (SLOT_FREE, some ⟨3, 1, 0xFF⟩) ∧
      dect_phy_mac_free_slots all_reserved (some ⟨3, 2, 0xFF⟩) = none ∧
      (dect_phy_mac_free_slots all_reserved (some ⟨4, 1, 0⟩)).map
          (fun r => (r.1.slots 255, r.2)) = some (SLOT_RESERVED, some ⟨4, 1, 0xFF⟩) ∧
      ((dect_phy_mac_free_slots all_reserved (some ⟨4, 1, 0⟩)).bind
          (fun r => dect_phy_mac_free_slots r.1 r.2)).map
          (fun r => (r.1.slots 255, r.2)) = some (SLOT_FREE, some ⟨4, 1, 0xFF⟩) := by
  refine ⟨rfl, by decide, rfl, by decide, by decide⟩

/-- C10: postcondition of release on an assigned client. For a client with
`assigned_slot_start = s`, `num_slots_needed = n` and `s + n <= 256`,
`dect_phy_mac_free_slots` completes, the resulting map is free on `[s, s+n)` and
equal to the old map at every other index, and `assigned_slot_start` becomes `0xFF`
(the other two fields are unchanged). -/
theorem C10_free_postcondition (g : dect_phy_mac_slot_map) (c : dect_phy_mac_client_info)
    (hb : c.assigned_slot_start + c.num_slots_needed ≤ MAX_SLOTS) :
    ∃ g1 c1, dect_phy_mac_free_slots g (some c) = some (g1, some c1) ∧
      (∀ i, i < MAX_SLOTS → g1.slots i =
        if c.assigned_slot_start ≤ i ∧ i < c.assigned_slot_start + c.num_slots_needed
        then SLOT_FREE else g.slots i) ∧
      c1.assigned_slot_start = 0xFF ∧
      c1.client_id = c.client_id ∧ c1.num_slots_needed = c.num_slots_needed := by
  obtain ⟨g1, hf, hs⟩ := free_in_range g c hb
  exact ⟨g1, _, hf, fun i _ => hs i, rfl, rfl, rfl⟩

theorem C10_free_postcondition_witness :
    ∃ g1 c1, dect_phy_mac_free_slots all_reserved (some ⟨7, 3, 5⟩) = some (g1, some c1) ∧
      (∀ i, i < MAX_SLOTS → g1.slots i =
        if 5 ≤ i ∧ i < 5 + 3 then SLOT_FREE else all_reserved.slots i) ∧
      c1.assigned_slot_start = 0xFF ∧ c1.client_id = 7 ∧ c1.num_slots_needed = 3 :=
  C10_free_postcondition all_reserved ⟨7, 3, 5⟩ (by decide)

set_option maxRecDepth 100000 in
/-- C11 does not hold of the code: index 255 is a valid start and is the value
`0xFF` that `dect_phy_mac_free_slots` stores. From an empty table, after a client
needing 255 slots got slots 0-254, a client needing one slot is granted slot 255:
the call returns 0 and leaves in `assigned_slot_start` the very value `0xFF`, so the
record after the successful call equals the unassigned record it was before, and
equals what a release stores. -/
theorem C11_granted_start_255_equals_release_marker :
    ∃ g1, dect_phy_mac_assign_slots all_free (some ⟨1, 255, 0xFF⟩) =
        some (0, g1, some ⟨1, 255, 0⟩) ∧
      (dect_phy_mac_assign_slots g1 (some ⟨2, 1, 0xFF⟩)).map (fun r => (r.1, r.2.2)) =
        some (0, some ⟨2, 1, 0xFF⟩) ∧
      (dect_phy_mac_assign_slots map_last_free (some ⟨2, 1, 0xFF⟩)).map
          (fun r => (r.1, r.2.2)) = some (0, some ⟨2, 1, 0xFF⟩) ∧
      (dect_phy_mac_free_slots all_reserved (some ⟨2, 1, 255⟩)).map (fun r => r.2) =
        some (some ⟨2, 1, 0xFF⟩) :=
  ⟨_, rfl, by decide, by decide, by decide⟩

set_option maxRecDepth 100000 in
/-- C12, as stated, fails at its last step: after A (5 slots) got start 0, B (3 slots)
got start 5 and A was released, slots 0-4 are free but slot 5 is still reserved, so
the search for 6 slots does not return 0 and the call on C does not leave
`assigned_slot_start = 0`. -/
theorem C12_counterexample :
    ∃ g1 g2 g3,
      dect_phy_mac_assign_slots all_free (some ⟨1, 5, 0xFF⟩) =
        some (0, g1, some ⟨1, 5, 0⟩) ∧
      dect_phy_mac_assign_slots g1 (some ⟨2, 3, 0xFF⟩) = some (0, g2, some ⟨2, 3, 5⟩) ∧
      dect_phy_mac_free_slots g2 (some ⟨1, 5, 0⟩) = some (g3, some ⟨1, 5, 0xFF⟩) ∧
      g3.slots 5 = SLOT_RESERVED ∧
      find_free_slots g3 6 ≠ 0 ∧
      ¬ ((dect_phy_mac_assign_slots g3 (some ⟨3, 6, 0xFF⟩)).map (fun r => (r.1, r.2.2)) =
          some (0, some ⟨3, 6, 0⟩)) :=
  ⟨_, _, _, rfl, rfl, rfl, by decide, by decide, by decide⟩

set_option maxRecDepth 100000 in
/-- C12, amended: on a 256-slot all-free map, assign(A) with 5 slots is granted start
0; then assign(B) with 3 slots is granted start 5; then release(A) makes slots 0-4
free; then assign(C) with 6 slots is granted start 8, not start 0: the freed region
0-4 has only 5 slots and slot 5 is still held by B. -/
theorem C12_scenario_grants_0_5_then_8 :
    ∃ g1 g2 g3 g4,
      dect_phy_mac_assign_slots all_free (some ⟨1, 5, 0xFF⟩) =
        some (0, g1, some ⟨1, 5, 0⟩) ∧
      dect_phy_mac_assign_slots g1 (some ⟨2, 3, 0xFF⟩) = some (0, g2, some ⟨2, 3, 5⟩) ∧
      dect_phy_mac_free_slots g2 (some ⟨1, 5, 0⟩) = some (g3, some ⟨1, 5, 0xFF⟩) ∧
      (∀ i, i < 5 → g3.slots i = SLOT_FREE) ∧
      (∀ i, 5 ≤ i → i < 8 → g3.slots i = SLOT_RESERVED) ∧
      dect_phy_mac_assign_slots g3 (some ⟨3, 6, 0xFF⟩) = some (0, g4, some ⟨3, 6, 8⟩) ∧
      (∀ i, 8 ≤ i → i < 14 → g4.slots i = SLOT_RESERVED) ∧
      (∀ i, i < 5 → g4.slots i = SLOT_FREE) :=
  ⟨_, _, _, _, rfl, rfl, rfl, by decide, by decide, rfl, by decide, by decide⟩

/-- C13: exclusive ownership per grant. If `dect_phy_mac_assign_slots` returns 0 and
records start `s`, then every slot of `[s, s + num_slots_needed)` was free in the map
before the call, so the granted range contains no slot that was reserved. -/
theorem C13_granted_range_was_free (g g1 : dect_phy_mac_slot_map)
    (c c1 : dect_phy_mac_client_info)
    (h : dect_phy_mac_assign_slots g (some c) = some (0, g1, some c1)) :
    (∀ i, c1.assigned_slot_start ≤ i →
        i < c1.assigned_slot_start + c.num_slots_needed → g.slots i = SLOT_FREE) ∧
      (∀ i, c1.assigned_slot_start ≤ i →
        i < c1.assigned_slot_start + c.num_slots_needed → g.slots i ≠ SLOT_RESERVED) := by
  have hfree : ∀ i, c1.assigned_slot_start ≤ i →
      i < c1.assigned_slot_start + c.num_slots_needed → g.slots i = SLOT_FREE := by
    by_cases hn : c.num_slots_needed = 0
    · rw [assign_zero_needed g c hn] at h
      simp at h
    · rcases assign_cases g c (by omega) with ⟨_, _, ha⟩ | ⟨s, g1', _, _, hrun, _, ha, _⟩
      · rw [ha] at h
        simp at h
      · rw [ha] at h
        simp only [Option.some.injEq, Prod.mk.injEq, true_and] at h
        obtain ⟨_, hc⟩ := h
        subst hc
        exact hrun
  refine ⟨hfree, ?_⟩
  intro i h1 h2 hres
  rw [hfree i h1 h2] at hres
  simp [SLOT_FREE, SLOT_RESERVED] at hres

theorem C13_granted_range_was_free_witness :
    ∃ g1, dect_phy_mac_assign_slots map_0_2_5_9 (some ⟨7, 4, 0xFF⟩) =
        some (0, g1, some ⟨7, 4, 5⟩) ∧
      (∀ i, 5 ≤ i → i < 5 + 4 → map_0_2_5_9.slots i = SLOT_FREE) ∧
      (∀ i, 5 ≤ i → i < 5 + 4 → map_0_2_5_9.slots i ≠ SLOT_RESERVED) :=
  ⟨_, rfl, C13_granted_range_was_free map_0_2_5_9 _ ⟨7, 4, 0xFF⟩ ⟨7, 4, 5⟩ rfl⟩

/-- C14 does not hold of the code: `dect_phy_mac_free_slots` runs its loop from
`assigned_slot_start` whatever its value. For a client carrying `0xFF` and needing two
slots (never assigned, or already released) the store for `i = 1` is at index
`255 + 1 = 256`, which is not an index of the table: that store is refused and the
call has no defined result. In general the call stores outside the table exactly when
`num_slots_needed > 0` and `assigned_slot_start + num_slots_needed > 256`. -/
theorem C14_free_stores_at_index_256 :
    slot_store all_free (0xFF + 1) SLOT_FREE = none ∧
      slot_store_loop 0xFF SLOT_FREE 2 0 all_free = none ∧
      dect_phy_mac_free_slots all_free (some ⟨3, 2, 0xFF⟩) = none ∧
      ((dect_phy_mac_free_slots all_reserved (some ⟨4, 2, 0⟩)).bind
          (fun r => dect_phy_mac_free_slots r.1 r.2)) = none ∧
      ∀ (g : dect_phy_mac_slot_map) (c : dect_phy_mac_client_info),
        dect_phy_mac_free_slots g (some c) = none ↔
          (0 < c.num_slots_needed ∧
            MAX_SLOTS < c.assigned_slot_start + c.num_slots_needed) := by
  refine ⟨rfl, rfl, rfl, rfl, ?_⟩
  intro g c
  constructor
  · intro h
    by_cases hb : c.assigned_slot_start + c.num_slots_needed ≤ MAX_SLOTS
    · obtain ⟨g1, hf, _⟩ := free_in_range g c hb
      rw [hf] at h
      simp at h
    · by_cases hn : c.num_slots_needed = 0
      · simp [dect_phy_mac_free_slots, hn, slot_store_loop] at h
      · exact ⟨by omega, by omega⟩
  · rintro ⟨hn, hb⟩
    have hl := slot_store_loop_out_of_range c.assigned_slot_start SLOT_FREE
      c.num_slots_needed 0 g hn (by omega)
    simp only [dect_phy_mac_free_slots, hl]

/-- C15: the granted run lies inside the table. For a request of 1..255 slots, when
`find_free_slots` returns `s >= 0` then `s + needed <= MAX_SLOTS`, every index
`s + i` with `i < needed` that the assignment writes is below 256, the narrowing
store into the 8-bit field keeps the value of `s`, and the assignment completes with
return value 0. -/
theorem C15_granted_run_inside_table (g : dect_phy_mac_slot_map) (needed : Nat) (s : Int)
    (h1 : 1 ≤ needed) (h2 : needed ≤ 255) (hs : find_free_slots g needed = s)
    (h0 : 0 ≤ s) :
    s + needed ≤ MAX_SLOTS ∧
      (∀ i : Nat, i < needed → 0 ≤ s + i ∧ s + i < MAX_SLOTS) ∧
      s % 256 = s ∧
      ∀ c : dect_phy_mac_client_info, c.num_slots_needed = needed →
        ∃ g1, dect_phy_mac_assign_slots g (some c) =
          some (0, g1, some ⟨c.client_id, needed, s.toNat⟩) := by
  have _ := h2
  rcases find_free_slots_spec g needed h1 with ⟨hf, _⟩ | ⟨t, hf, hb, _, _⟩
  · omega
  · have hst : s = (t : Int) := by omega
    subst hst
    have hb' : t + needed ≤ 256 := hb
    refine ⟨by simp only [MAX_SLOTS]; omega, ?_, by omega, ?_⟩
    · intro i hi
      simp only [MAX_SLOTS]
      omega
    · intro c hc
      subst hc
      obtain ⟨g1, ha, _⟩ := assign_found g c t (by omega) hf hb
      exact ⟨g1, by simpa using ha⟩

set_option maxRecDepth 100000 in
theorem C15_granted_run_inside_table_witness :
    ((255 : Int) + (1 : Nat) ≤ MAX_SLOTS ∧
      (∀ i : Nat, i < 1 → 0 ≤ (255 : Int) + i ∧ (255 : Int) + i < MAX_SLOTS) ∧
      (255 : Int) % 256 = 255 ∧
      ∀ c : dect_phy_mac_client_info, c.num_slots_needed = 1 →
        ∃ g1, dect_phy_mac_assign_slots map_last_free (some c) =
          some (0, g1, some ⟨c.client_id, 1, (255 : Int).toNat⟩)) :=
  C15_granted_run_inside_table map_last_free 1 255 (by decide) (by decide) (by decide)
    (by decide)

/-! ## Counting reserved slots -/

theorem reserved_count_upto_fill_reserved (g g1 : dect_phy_mac_slot_map) (s n : Nat)
    (hs : ∀ j, g1.slots j = if s ≤ j ∧ j < s + n then SLOT_RESERVED else g.slots j)
    (hfree : ∀ j, s ≤ j → j < s + n → g.slots j ≠ SLOT_RESERVED) :
    ∀ k, reserved_count_upto g1 k =
      reserved_count_upto g k + (min k (s + n) - min k s) := by
  intro k
  induction k with
  | zero => simp [reserved_count_upto]
  | succ k ih =>
    unfold reserved_count_upto
    rw [ih, hs k]
    by_cases hin : s ≤ k ∧ k < s + n
    · rw [if_pos hin, if_pos rfl, if_neg (hfree k hin.1 hin.2)]
      omega
    · rw [if_neg hin]
      omega

theorem reserved_count_upto_fill_free (g g1 : dect_phy_mac_slot_map) (s n : Nat)
    (hs : ∀ j, g1.slots j = if s ≤ j ∧ j < s + n then SLOT_FREE else g.slots j)
    (hres : ∀ j, s ≤ j → j < s + n → g.slots j = SLOT_RESERVED) :
    ∀ k, reserved_count_upto g1 k + (min k (s + n) - min k s) =
      reserved_count_upto g k := by
  intro k
  induction k with
  | zero => simp [reserved_count_upto]
  | succ k ih =>
    unfold reserved_count_upto
    rw [← ih, hs k]
    by_cases hin : s ≤ k ∧ k < s + n
    · have hne : ¬ (SLOT_FREE = SLOT_RESERVED) := by simp [SLOT_FREE, SLOT_RESERVED]
      rw [if_pos hin, if_neg hne, if_pos (hres k hin.1 hin.2)]
      omega
    · rw [if_neg hin]
      omega

/-- C16: reserved-count accounting per operation. On a slot map whose entries are all
free or reserved, an assignment returning 0 increases the number of reserved entries
by exactly `num_slots_needed`, an assignment returning -1 leaves it unchanged, and a
release of a client whose range lies in the table with all its slots reserved
decreases it by exactly `num_slots_needed`. -/
theorem C16_reserved_count_accounting (g : dect_phy_mac_slot_map)
    (c : dect_phy_mac_client_info)
    (hbin : ∀ i, i < MAX_SLOTS → g.slots i = SLOT_FREE ∨ g.slots i = SLOT_RESERVED) :
    (∀ g1 c1, dect_phy_mac_assign_slots g (some c) = some (0, g1, c1) →
        reserved_count g1 = reserved_count g + c.num_slots_needed) ∧
      (∀ g1 c1, dect_phy_mac_assign_slots g (some c) = some (-1, g1, c1) →
        reserved_count g1 = reserved_count g) ∧
      (c.assigned_slot_start + c.num_slots_needed ≤ MAX_SLOTS →
        (∀ i, c.assigned_slot_start ≤ i → i < c.assigned_slot_start + c.num_slots_needed →
          g.slots i = SLOT_RESERVED) →
        ∃ g1 c1, dect_phy_mac_free_slots g (some c) = some (g1, c1) ∧
          reserved_count g1 + c.num_slots_needed = reserved_count g) := by
  have _ := hbin
  refine ⟨?_, ?_, ?_⟩
  · intro g1 c1 h
    by_cases hn : c.num_slots_needed = 0
    · rw [assign_zero_needed g c hn] at h
      simp at h
    · rcases assign_cases g c (by omega) with ⟨_, _, ha⟩ | ⟨s, g1', _, hb, hrun, _, ha, hs⟩
      · rw [ha] at h
        simp at h
      · rw [ha] at h
        simp only [Option.some.injEq, Prod.mk.injEq, true_and] at h
        obtain ⟨hg, _⟩ := h
        subst hg
        have hcount := reserved_count_upto_fill_reserved g g1' s c.num_slots_needed hs
          (by
            intro j h1 h2 hres
            rw [hrun j h1 h2] at hres
            simp [SLOT_FREE, SLOT_RESERVED] at hres)
          MAX_SLOTS
        unfold reserved_count
        rw [hcount]
        omega
  · intro g1 c1 h
    by_cases hn : c.num_slots_needed = 0
    · rw [assign_zero_needed g c hn] at h
      simp only [Option.some.injEq, Prod.mk.injEq, true_and] at h
      rw [← h.1]
    · rcases assign_cases g c (by omega) with ⟨_, _, ha⟩ | ⟨s, g1', _, _, _, _, ha, _⟩
      · rw [ha] at h
        simp only [Option.some.injEq, Prod.mk.injEq, true_and] at h
        rw [← h.1]
      · rw [ha] at h
        simp at h
  · intro hb hres
    obtain ⟨g1, hf, hs⟩ := free_in_range g c hb
    refine ⟨g1, _, hf, ?_⟩
    have hcount := reserved_count_upto_fill_free g g1 c.assigned_slot_start
      c.num_slots_needed hs hres MAX_SLOTS
    unfold reserved_count
    rw [← hcount]
    omega

set_option maxRecDepth 100000 in
theorem C16_reserved_count_accounting_witness :
    (∃ g1 c1, dect_phy_mac_assign_slots map_0_2_5_9 (some ⟨7, 3, 10⟩) = some (0, g1, c1) ∧
        reserved_count g1 = reserved_count map_0_2_5_9 + 3) ∧
      (∃ g1 c1, dect_phy_mac_assign_slots map_two_pairs (some ⟨7, 3, 10⟩) =
          some (-1, g1, c1) ∧
        reserved_count g1 = reserved_count map_two_pairs) ∧
      (∃ g1 c1, dect_phy_mac_free_slots map_0_2_5_9 (some ⟨7, 3, 10⟩) = some (g1, c1) ∧
        reserved_count g1 + 3 = reserved_count map_0_2_5_9) :=
  ⟨⟨_, _, rfl,
      (C16_reserved_count_accounting map_0_2_5_9 ⟨7, 3, 10⟩ (by decide)).1 _ _ rfl⟩,
    ⟨_, _, rfl,
      (C16_reserved_count_accounting map_two_pairs ⟨7, 3, 10⟩ (by decide)).2.1 _ _ rfl⟩,
    (C16_reserved_count_accounting map_0_2_5_9 ⟨7, 3, 10⟩ (by decide)).2.2 (by decide)
      (by decide)⟩

/-- C17: no guard against an already-assigned client. For a client that records a
range `[s, s+n)` inside the table whose slots are all reserved, if the map has a free
run of length `n`, a further `dect_phy_mac_assign_slots` on that client returns 0,
reserves a run `[t, t+n)` that was free and is disjoint from `[s, s+n)`, leaves
`[s, s+n)` reserved, and overwrites `assigned_slot_start` with `t`, which differs
from `s`. -/
theorem C17_second_assign_reserves_again (g : dect_phy_mac_slot_map)
    (c : dect_phy_mac_client_info) (hn : 0 < c.num_slots_needed)
    (hb : c.assigned_slot_start + c.num_slots_needed ≤ MAX_SLOTS)
    (hres : ∀ i, c.assigned_slot_start ≤ i →
      i < c.assigned_slot_start + c.num_slots_needed → g.slots i = SLOT_RESERVED)
    (hrun : ∃ t, t + c.num_slots_needed ≤ MAX_SLOTS ∧ FreeRun g t c.num_slots_needed) :
    ∃ g1 t, dect_phy_mac_assign_slots g (some c) =
        some (0, g1, some ⟨c.client_id, c.num_slots_needed, t⟩) ∧
      FreeRun g t c.num_slots_needed ∧
      (t + c.num_slots_needed ≤ c.assigned_slot_start ∨
        c.assigned_slot_start + c.num_slots_needed ≤ t) ∧
      t ≠ c.assigned_slot_start ∧
      (∀ i, c.assigned_slot_start ≤ i →
        i < c.assigned_slot_start + c.num_slots_needed → g1.slots i = SLOT_RESERVED) ∧
      (∀ i, t ≤ i → i < t + c.num_slots_needed → g1.slots i = SLOT_RESERVED) := by
  have _ := hb
  rcases assign_cases g c hn with ⟨_, hno, _⟩ | ⟨t, g1, _, _, hfr, _, ha, hs⟩
  · obtain ⟨t, ht, hfr⟩ := hrun
    exact absurd hfr (hno t ht)
  · have hclash : ∀ i, c.assigned_slot_start ≤ i →
        i < c.assigned_slot_start + c.num_slots_needed →
        t ≤ i → i < t + c.num_slots_needed → False := by
      intro i h1 h2 h3 h4
      have hr := hres i h1 h2
      rw [hfr i h3 h4] at hr
      simp [SLOT_FREE, SLOT_RESERVED] at hr
    have hdis : t + c.num_slots_needed ≤ c.assigned_slot_start ∨
        c.assigned_slot_start + c.num_slots_needed ≤ t := by
      by_contra hcon
      by_cases hle : t ≤ c.assigned_slot_start
      · exact hclash c.assigned_slot_start (Nat.le_refl _) (by omega) hle (by omega)
      · exact hclash t (by omega) (by omega) (Nat.le_refl _) (by omega)
    refine ⟨g1, t, ha, hfr, hdis, by omega, ?_, ?_⟩
    · intro i h1 h2
      rw [hs i]
      split
      · rfl
      · exact hres i h1 h2
    · intro i h1 h2
      rw [hs i, if_pos ⟨h1, h2⟩]

theorem C17_second_assign_reserves_again_witness :
    ∃ g1 t, dect_phy_mac_assign_slots map_0_2_5_9 (some ⟨7, 2, 3⟩) =
        some (0, g1, some ⟨7, 2, t⟩) ∧
      FreeRun map_0_2_5_9 t 2 ∧
      (t + 2 ≤ 3 ∨ 3 + 2 ≤ t) ∧
      t ≠ 3 ∧
      (∀ i, 3 ≤ i → i < 3 + 2 → g1.slots i = SLOT_RESERVED) ∧
      (∀ i, t ≤ i → i < t + 2 → g1.slots i = SLOT_RESERVED) :=
  C17_second_assign_reserves_again map_0_2_5_9 ⟨7, 2, 3⟩ (by decide) (by decide)
    (by decide)
    ⟨0, by decide, fun j _ h2 => if_pos (Or.inl (by have h3 : j < 0 + 2 := h2; omega))⟩

/-! ## Assigning into a packed table -/

theorem assign_on_packed (g : dect_phy_mac_slot_map) (p : Nat)
    (c : dect_phy_mac_client_info)
    (hp : ∀ i, i < MAX_SLOTS → g.slots i = if i < p then SLOT_RESERVED else SLOT_FREE)
    (hn : 1 ≤ c.num_slots_needed) (hb : p + c.num_slots_needed ≤ MAX_SLOTS) :
    ∃ g1, dect_phy_mac_assign_slots g (some c) =
        some (0, g1, some ⟨c.client_id, c.num_slots_needed, p⟩) ∧
      ∀ i, i < MAX_SLOTS →
        g1.slots i = if i < p + c.num_slots_needed then SLOT_RESERVED else SLOT_FREE := by
  have hfrp : FreeRun g p c.num_slots_needed := by
    intro j h1 h2
    rw [hp j (by omega), if_neg (by omega)]
  rcases assign_cases g c hn with ⟨_, hno, _⟩ | ⟨s, g1, _, hsb, hfr, hmin, ha, hs⟩
  · exact absurd hfrp (hno p hb)
  · have hsp : s = p := by
      by_contra hne
      by_cases hlt : p < s
      · exact hmin p hlt hfrp
      · have hs0 := hfr s (Nat.le_refl _) (by omega)
        rw [hp s (by omega), if_pos (by omega)] at hs0
        simp [SLOT_FREE, SLOT_RESERVED] at hs0
    subst hsp
    refine ⟨g1, ha, ?_⟩
    intro i hi
    rw [hs i]
    by_cases hin : s ≤ i ∧ i < s + c.num_slots_needed
    · rw [if_pos hin, if_pos hin.2]
    · rw [if_neg hin, hp i hi]
      by_cases hlt : i < s
      · rw [if_pos hlt, if_pos (by omega)]
      · rw [if_neg hlt, if_neg (by omega)]

theorem assign_in_order_packed (cs : List dect_phy_mac_client_info) :
    ∀ (g : dect_phy_mac_slot_map) (p : Nat),
      (∀ i, i < MAX_SLOTS → g.slots i = if i < p then SLOT_RESERVED else SLOT_FREE) →
      (∀ c ∈ cs, 1 ≤ c.num_slots_needed) →
      p + (cs.map (fun c => c.num_slots_needed)).sum ≤ MAX_SLOTS →
      ∃ g1 out, assign_in_order g cs = some (g1, out) ∧
        out.length = cs.length ∧
        (∀ (j : Nat) (c : dect_phy_mac_client_info), cs[j]? = some c →
          out[j]? = some (0, dect_phy_mac_client_info.mk c.client_id c.num_slots_needed
            (p + ((cs.take j).map (fun c => c.num_slots_needed)).sum))) ∧
        ∀ i, i < MAX_SLOTS → g1.slots i =
          if i < p + (cs.map (fun c => c.num_slots_needed)).sum
          then SLOT_RESERVED else SLOT_FREE := by
  induction cs with
  | nil =>
    intro g p hp _ _
    refine ⟨g, [], rfl, rfl, ?_, ?_⟩
    · intro j c hj
      simp at hj
    · intro i hi
      simpa using hp i hi
  | cons c cs ih =>
    intro g p hp hn hsum
    simp only [List.map_cons, List.sum_cons] at hsum
    obtain ⟨g1, ha, hp1⟩ := assign_on_packed g p c hp (hn c (List.mem_cons_self c cs))
      (by omega)
    obtain ⟨g2, out, hrest, hlen, hout, hp2⟩ := ih g1 (p + c.num_slots_needed) hp1
      (fun d hd => hn d (List.mem_cons_of_mem c hd)) (by omega)
    refine ⟨g2, (0, ⟨c.client_id, c.num_slots_needed, p⟩) :: out, ?_, ?_, ?_, ?_⟩
    · simp only [assign_in_order, ha, hrest]
    · simp [hlen]
    · intro j d hj
      cases j with
      | zero =>
        simp only [List.getElem?_cons_zero, Option.some.injEq] at hj
        subst hj
        simp
      | succ j =>
        simp only [List.getElem?_cons_succ] at hj
        have h := hout j d hj
        simp only [List.getElem?_cons_succ, List.take_succ_cons, List.map_cons,
          List.sum_cons]
        rw [h, Nat.add_assoc]
    · intro i hi
      rw [hp2 i hi]
      simp only [List.map_cons, List.sum_cons, Nat.add_assoc]

/-- C18: sequential packing from an empty frame. Starting from the all-free table,
for every list of clients whose `num_slots_needed` are each in 1..255 and sum to at
most 256, calling `dect_phy_mac_assign_slots` on them in order returns 0 every time,
records for client `j` the start `n_1 + ... + n_(j-1)`, and leaves exactly the slots
below `n_1 + ... + n_k` reserved (all others free). -/
theorem C18_sequential_packing (cs : List dect_phy_mac_client_info)
    (hn : ∀ c ∈ cs, 1 ≤ c.num_slots_needed ∧ c.num_slots_needed ≤ 255)
    (hsum : (cs.map (fun c => c.num_slots_needed)).sum ≤ MAX_SLOTS) :
    ∃ g1 out, assign_in_order all_free cs = some (g1, out) ∧
      out.length = cs.length ∧
      (∀ (j : Nat) (c : dect_phy_mac_client_info), cs[j]? = some c →
        out[j]? = some (0, dect_phy_mac_client_info.mk c.client_id c.num_slots_needed
          (((cs.take j).map (fun c => c.num_slots_needed)).sum))) ∧
      ∀ i, i < MAX_SLOTS → g1.slots i =
        if i < (cs.map (fun c => c.num_slots_needed)).sum
        then SLOT_RESERVED else SLOT_FREE := by
  obtain ⟨g1, out, h1, h2, h3, h4⟩ := assign_in_order_packed cs all_free 0
    (fun i _ => by simp [all_free])
    (fun c hc => (hn c hc).1) (by omega)
  refine ⟨g1, out, h1, h2, ?_, ?_⟩
  · intro j c hj
    simpa using h3 j c hj
  · intro i hi
    simpa using h4 i hi

theorem C18_sequential_packing_witness :
    ∃ g1 out, assign_in_order all_free [⟨1, 100, 0xFF⟩, ⟨2, 155, 0xFF⟩, ⟨3, 1, 0xFF⟩] = some (g1, out) ∧
      out.length = ([⟨1, 100, 0xFF⟩, ⟨2, 155, 0xFF⟩, ⟨3, 1, 0xFF⟩] : List dect_phy_mac_client_info).length ∧
      (∀ (j : Nat) (c : dect_phy_mac_client_info),
        ([⟨1, 100, 0xFF⟩, ⟨2, 155, 0xFF⟩, ⟨3, 1, 0xFF⟩] : List dect_phy_mac_client_info)[j]? = some c →
        out[j]? = some (0, dect_phy_mac_client_info.mk c.client_id c.num_slots_needed
          (((([⟨1, 100, 0xFF⟩, ⟨2, 155, 0xFF⟩, ⟨3, 1, 0xFF⟩] : List dect_phy_mac_client_info).take j).map
            (fun c => c.num_slots_needed)).sum))) ∧
      ∀ i, i < MAX_SLOTS → g1.slots i =
        if i < (([⟨1, 100, 0xFF⟩, ⟨2, 155, 0xFF⟩, ⟨3, 1, 0xFF⟩] : List dect_phy_mac_client_info).map
          (fun c => c.num_slots_needed)).sum
        then SLOT_RESERVED else SLOT_FREE :=
  C18_sequential_packing [⟨1, 100, 0xFF⟩, ⟨2, 155, 0xFF⟩, ⟨3, 1, 0xFF⟩] (by decide) (by decide)

end DectTdma
